import Mathlib

/-!
# Geode native client: state wrapper of a continuous query, typed objects, event dispatch

Shallow embedding of

* `src/clicache/src/CqState.cpp`: the managed wrapper `CqState` around the native
  `gemfire::CqState` (predicates, `SetState`, `GetState`);
* `src/quickstart/cpp/PoolRemoteQuery.cpp`: the control flow of `main`;

together with the parts of the system that the sources only refer to and that are
described in the specification (identity-field equality of typed objects, the wire codec,
event dispatch of the continuous-query registry).
-/

/-! ## Enumerations of `CqState.hpp` -/

/-- Modelled from the spec: the enumerations `gemfire::CqState::StateType` (native) and
`CqStateType` (managed) are declared in `CqState.hpp`, which is not among the sources. The
spec names their five enumerators; the integer value of each enumerator is a field of this
record, so every result below holds for whatever values the headers assign. A variable of
enumeration type is an integer and can hold a value that is none of the five. -/
structure StateCodes where
  STOPPED : Int
  RUNNING : Int
  CLOSED : Int
  CLOSING : Int
  INVALID : Int
deriving DecidableEq, Repr

/-- The five enumerators of one enumeration are pairwise different integers. -/
def StateCodes.Distinct (c : StateCodes) : Prop :=
  [c.STOPPED, c.RUNNING, c.CLOSED, c.CLOSING, c.INVALID].Nodup

instance (c : StateCodes) : Decidable c.Distinct := by
  unfold StateCodes.Distinct
  infer_instance

/-- The five state names of the spec (section 3, `ContinuousQuery.state`). -/
inductive CqStateName where
  | STOPPED
  | RUNNING
  | CLOSED
  | CLOSING
  | INVALID
deriving DecidableEq, Repr

/-- The enumerator of a given name. -/
def StateCodes.code (c : StateCodes) : CqStateName → Int
  | .STOPPED => c.STOPPED
  | .RUNNING => c.RUNNING
  | .CLOSED => c.CLOSED
  | .CLOSING => c.CLOSING
  | .INVALID => c.INVALID

/-- The five enumerators as a list. -/
def StateCodes.all (c : StateCodes) : List Int :=
  [c.STOPPED, c.RUNNING, c.CLOSED, c.CLOSING, c.INVALID]

/-- A concrete assignment of enumerator values (declaration order of the `if` chains in
`CqState.cpp`), used to evaluate the definitions on concrete inputs. -/
def sampleCodes : StateCodes :=
  { STOPPED := 0, RUNNING := 1, CLOSED := 2, CLOSING := 3, INVALID := 4 }

/-! ## The native state holder -/

namespace gemfire

/-- Modelled from the spec: the native class `gemfire::CqState` is not among the sources (only
its caller `CqState.cpp` is). It is modelled as a holder of the last state set: one field of
enumeration type. -/
structure CqState where
  m_state : Int
deriving DecidableEq, Repr

/-- Modelled from the spec: native `setState`, absent from the sources; it stores its
argument. -/
def CqState.setState (self : CqState) (state : Int) : CqState :=
  { self with m_state := state }

/-- Modelled from the spec: native `getState`, absent from the sources; it returns the state
last stored. -/
def CqState.getState (self : CqState) : Int :=
  self.m_state

end gemfire

/-! ## The managed wrapper (`CqState.cpp`) -/

namespace GemStone.GemFire.Cache.Generic

/-- The managed `CqState`: a wrapper whose only content is the native object it points to. In
every function below `N` holds the native enumerators (`gemfire::CqState::...`) and `M` the
managed ones (`CqStateType::...`). -/
structure CqState where
  NativePtr : gemfire.CqState
deriving DecidableEq, Repr

/-- `CqState::SetState` (CqState.cpp, lines 58-71): `st` starts as native `INVALID`, the chain
of comparisons overwrites it for the four other managed enumerators, and the native state is
set to `st`. The function is `void`; the updated object is returned. -/
def CqState.SetState (N M : StateCodes) (self : CqState) (state : Int) : CqState :=
  let st : Int := N.INVALID
  let st : Int :=
    if state = M.STOPPED then N.STOPPED
    else if state = M.RUNNING then N.RUNNING
    else if state = M.CLOSED then N.CLOSED
    else if state = M.CLOSING then N.CLOSING
    else st
  { NativePtr := self.NativePtr.setState st }

/-- `CqState::GetState` (CqState.cpp, lines 73-88). -/
def CqState.GetState (N M : StateCodes) (self : CqState) : Int :=
  let st : Int := self.NativePtr.getState
  if st = N.STOPPED then M.STOPPED
  else if st = N.RUNNING then M.RUNNING
  else if st = N.CLOSED then M.CLOSED
  else if st = N.CLOSING then M.CLOSING
  else M.INVALID

/-- A managed `CqState` whose native object holds the state named `p`. -/
def CqState.holding (N : StateCodes) (p : CqStateName) : CqState :=
  { NativePtr := { m_state := N.code p } }

end GemStone.GemFire.Cache.Generic

/-! ## The transition graph of section 4.4 (from the words of the spec) -/

/-- The edges of the state graph as the spec lists them: `INVALID` to `RUNNING`, `RUNNING` to
`STOPPED`, `STOPPED` to `RUNNING`, `RUNNING` or `STOPPED` to `CLOSING`, `CLOSING` to
`CLOSED`. -/
def specGraphEdge : CqStateName → CqStateName → Bool
  | .INVALID, .RUNNING => true
  | .RUNNING, .STOPPED => true
  | .STOPPED, .RUNNING => true
  | .RUNNING, .CLOSING => true
  | .STOPPED, .CLOSING => true
  | .CLOSING, .CLOSED => true
  | _, _ => false

/-! ## The quickstart driver (`PoolRemoteQuery.cpp`) -/

namespace PoolRemoteQuery

/-- The steps of the `try` block of `main`, one constructor per call site, in the order of the
source text. A step made once per row of the second result set carries the row index.
`logColumn row col` is the evaluation of the arguments of one log line of the loop body
(`psi->getFieldName(col)` and `(*psi)[col]->toString()->asChar()`): C++ leaves the order
of the two argument evaluations open, so they form one step. -/
inductive Call where
  | createCacheFactory
  | setCacheXmlFile
  | createCache
  | getRegion
  | registerPortfolio
  | registerPosition
  | newPortfolio (id : Nat)
  | put (key : Nat)
  | getQueryService
  | newQuery (n : Nat)
  | execute (n : Nat)
  | resultSize (n : Nat)
  | getIterator
  | hasNext (row : Nat)
  | next (row : Nat)
  | logColumn (row col : Nat)
  | regionQuery
  | selectValue
  | dynCastPortfolio
  | portfolioToString
  | existsValue
  | closeCache
deriving DecidableEq, Repr

/-- What a step does: it completes, it raises a Geode `Exception` (the class the `catch`
clause names), or it fails in a way the `catch` clause does not handle. -/
inductive Outcome where
  | completes
  | raisesException
  | failsOtherwise
deriving DecidableEq, Repr

/-- The surroundings of one run of `main`: the outcome of each step, and the number of rows
the iterator over the second result set yields (`hasNext` is true that many times). -/
structure World where
  outcome : Call → Outcome
  rows : Nat

/-- What left the `try` block early. -/
inductive Thrown where
  | geodeException
  | other
deriving DecidableEq, Repr

/-- How `main` ends: it returns an exit code, or the process ends without `main` returning. -/
inductive Exit where
  | returned (code : Int)
  | aborted
deriving DecidableEq, Repr

/-- A piece of the `try` block: given the steps made so far it ends normally or leaves the
block early, and yields the steps made. -/
def Exec (α : Type) : Type :=
  List Call → Except Thrown α × List Call

/-- Sequencing of two statements: the second runs only when the first ended normally. -/
def Exec.andThen {α β : Type} (m : Exec α) (f : α → Exec β) : Exec β := fun trace =>
  match m trace with
  | (.ok a, trace1) => f a trace1
  | (.error e, trace1) => (.error e, trace1)

/-- The statements of a block run in sequence. -/
instance : Monad Exec where
  pure a := fun trace => (.ok a, trace)
  bind := Exec.andThen

/-- One step: it is recorded when it is made, and it ends normally or leaves the block
according to its outcome. -/
def call (w : World) (c : Call) : Exec Unit := fun trace =>
  match w.outcome c with
  | .completes => (.ok (), trace ++ [c])
  | .raisesException => (.error .geodeException, trace ++ [c])
  | .failsOtherwise => (.error .other, trace ++ [c])

/-- The loop `while (iter.hasNext()) { ... }` (lines 106-113) with `remaining` rows left, the
next row being `row`. With no row left `hasNext` returns false and the loop ends; otherwise
the body runs: `iter.next()` and the two log lines. -/
def whileHasNext (w : World) : Nat → Nat → Exec Unit
  | 0, row => call w (.hasNext row)
  | remaining + 1, row => do
    call w (.hasNext row)
    call w (.next row)
    call w (.logColumn row 0)
    call w (.logColumn row 1)
    whileHasNext w remaining (row + 1)

/-- The `try` block of `main` (lines 50-139), statement by statement. The logging statements
whose arguments make no call are not steps. -/
def tryBlock (w : World) : Exec Unit := do
  call w .createCacheFactory
  call w .setCacheXmlFile
  call w .createCache
  call w .getRegion
  call w .registerPortfolio
  call w .registerPosition
  call w (.newPortfolio 1)
  call w (.newPortfolio 2)
  call w (.newPortfolio 3)
  call w (.put 1)
  call w (.put 2)
  call w (.put 3)
  call w .getQueryService
  call w (.newQuery 1)
  call w (.execute 1)
  call w (.resultSize 1)
  call w (.newQuery 2)
  call w (.execute 2)
  call w (.resultSize 2)
  call w .getIterator
  whileHasNext w w.rows 0
  call w .regionQuery
  call w (.resultSize 3)
  call w .selectValue
  call w .dynCastPortfolio
  call w .portfolioToString
  call w .existsValue
  call w .closeCache

/-- One run of `main`: its exit and the steps it made. -/
structure MainRun where
  exit : Exit
  trace : List Call
deriving DecidableEq, Repr

/-- The function `main` (lines 49-145): the `try` block ends with `return 0`; the handler
`catch (const Exception&)` ends with `return 1`; anything else leaves `main` without a
return. -/
def main (w : World) : MainRun :=
  match tryBlock w [] with
  | (.ok (), trace) => { exit := .returned 0, trace := trace }
  | (.error .geodeException, trace) => { exit := .returned 1, trace := trace }
  | (.error .other, trace) => { exit := .aborted, trace := trace }

/-- The steps of `main` as the header comment of the file and the claim list them, for a
second result set of `rows` rows: create the cache, get the region, register the two types,
build and put three portfolios, get the query service, run both queries, iterate over the
rows, run the region query, `selectValue`, `existsValue`, close the cache. -/
def listedSteps (rows : Nat) : List Call :=
  [.createCacheFactory, .setCacheXmlFile, .createCache,
    .getRegion,
    .registerPortfolio, .registerPosition,
    .newPortfolio 1, .newPortfolio 2, .newPortfolio 3, .put 1, .put 2, .put 3,
    .getQueryService,
    .newQuery 1, .execute 1, .resultSize 1,
    .newQuery 2, .execute 2, .resultSize 2,
    .getIterator]
  ++ (List.range rows).flatMap
      (fun row => [.hasNext row, .next row, .logColumn row 0, .logColumn row 1])
  ++ [.hasNext rows,
    .regionQuery, .resultSize 3,
    .selectValue, .dynCastPortfolio, .portfolioToString,
    .existsValue,
    .closeCache]

/-- The steps of a list made one after the other: each step is recorded when it is made, and
the first step that does not complete ends the run. -/
def runCalls (w : World) : List Call → List Call → Except Thrown Unit × List Call
  | [], trace => (.ok (), trace)
  | c :: cs, trace =>
    match w.outcome c with
    | .completes => runCalls w cs (trace ++ [c])
    | .raisesException => (.error .geodeException, trace ++ [c])
    | .failsOtherwise => (.error .other, trace ++ [c])

/-- A world in which every step completes and the result set has `rows` rows. -/
def calmWorld (rows : Nat) : World :=
  { outcome := fun _ => .completes, rows := rows }

/-- A world in which the step `bad` raises a Geode exception and every other step
completes. -/
def worldRaisingAt (bad : Call) (rows : Nat) : World :=
  { outcome := fun c => if c = bad then .raisesException else .completes, rows := rows }

end PoolRemoteQuery

/-! ## Typed objects and the wire codec (spec sections 3 and 4.1) -/

namespace WireCodec

/-- Modelled from the spec: the descriptor of one field (section 3): name, wire type tag,
identity flag (what `PdxIdentityFieldAttribute` marks on a member field) and position. The
code that consumes the attribute is not among the sources. -/
structure FieldDescriptor where
  name : String
  tag : Nat
  isIdentity : Bool
  position : Nat
deriving DecidableEq, Repr

/-- Modelled from the spec: a type descriptor (section 3): type identifier and the ordered
list of field descriptors. -/
structure TypeDescriptor where
  typeId : Nat
  fields : List FieldDescriptor
deriving DecidableEq, Repr

/-- Modelled from the spec: a typed object (section 3, last variant of `WireValue`): the
identifier of its type descriptor and its field values in descriptor order. The field
values are of an arbitrary type `V`. -/
structure TypedObject (V : Type) where
  typeId : Nat
  values : List V
deriving DecidableEq, Repr

/-- The type marks at least one field as identity field. -/
def TypeDescriptor.hasIdentity (T : TypeDescriptor) : Bool :=
  T.fields.any (fun f => f.isIdentity)

/-- Modelled from the spec: the fields over which equality and hash code are computed
(section 4.1): the fields flagged identity; if no field is flagged, all fields. -/
def TypeDescriptor.participates (T : TypeDescriptor) (f : FieldDescriptor) : Bool :=
  if T.hasIdentity then f.isIdentity else true

/-- The values of the fields selected by `keep`, in descriptor order. -/
def selectValues {V : Type} (keep : FieldDescriptor → Bool) :
    List FieldDescriptor → List V → List V
  | f :: fs, v :: vs => if keep f then v :: selectValues keep fs vs else selectValues keep fs vs
  | _, _ => []

/-- The values that take part in equality and hash code of an object of type `T`. -/
def comparedValues {V : Type} (T : TypeDescriptor) (o : TypedObject V) : List V :=
  selectValues T.participates T.fields o.values

/-- Modelled from the spec: equality of two typed objects (section 4.1): same type identifier
and equal values on the participating fields. -/
def objEquals {V : Type} [DecidableEq V] (T : TypeDescriptor) (a b : TypedObject V) : Bool :=
  decide (a.typeId = b.typeId) && decide (comparedValues T a = comparedValues T b)

/-- Modelled from the spec: the hash code of a typed object (section 4.1): a function of the
values of the participating fields only. The spec fixes no hash function; `hashOf` is
any function on lists of values. -/
def objHashCode {V : Type} (hashOf : List V → Nat) (T : TypeDescriptor) (o : TypedObject V) :
    Nat :=
  hashOf (comparedValues T o)

/-- Two lists of field values agree on every field selected by `keep`. -/
def agreeOn {V : Type} [DecidableEq V] (keep : FieldDescriptor → Bool) :
    List FieldDescriptor → List V → List V → Bool
  | f :: fs, a :: as, b :: bs => (!keep f || decide (a = b)) && agreeOn keep fs as bs
  | _, _, _ => true

/-- Two objects agree on all fields of `T` that are marked as identity fields. -/
def agreeOnIdentity {V : Type} [DecidableEq V] (T : TypeDescriptor) (a b : TypedObject V) :
    Bool :=
  agreeOn (fun f => f.isIdentity) T.fields a.values b.values

/-- An object is an instance of `T`: it carries the identifier of `T` and one value per
field. -/
def isInstance {V : Type} (T : TypeDescriptor) (o : TypedObject V) : Bool :=
  decide (o.typeId = T.typeId) && decide (o.values.length = T.fields.length)

/-- Modelled from the spec: the byte layout of integers and of field values (section 6: the
layout of scalar tags is an implementation choice that must be self-consistent between
encode and decode). A byte is a natural number. `natFits` and `valueFits` say which
integers and which values the layout can represent; `tagOf` is the wire type tag of a
value; `getNat` and `getValue` read from the front of the input and return the remaining
input, or `none` when the input is truncated or ill-formed. -/
structure WireFormat (V : Type) where
  putNat : Nat → List Nat
  getNat : List Nat → Option (Nat × List Nat)
  natFits : Nat → Bool
  tagOf : V → Nat
  putValue : V → List Nat
  getValue : Nat → List Nat → Option (V × List Nat)
  valueFits : V → Bool

/-- The layout is self-consistent between encode and decode: what was written is read back,
and the input that follows it is left untouched. -/
def WireFormat.SelfConsistent {V : Type} (L : WireFormat V) : Prop :=
  (∀ n rest, L.natFits n = true → L.getNat (L.putNat n ++ rest) = some (n, rest)) ∧
  (∀ v rest, L.valueFits v = true →
    L.getValue (L.tagOf v) (L.putValue v ++ rest) = some (v, rest))

/-- Modelled from the spec: the type registry owned by the codec (section 4.1): the
registered descriptors, oldest first; entries are appended and never removed. -/
structure Registry where
  types : List TypeDescriptor
deriving DecidableEq, Repr

/-- The descriptor registered under a type identifier. -/
def Registry.lookup (reg : Registry) (typeId : Nat) : Option TypeDescriptor :=
  reg.types.find? (fun T => decide (T.typeId = typeId))

/-- The errors of the codec named by the spec (sections 4.1 and 7). -/
inductive CodecError where
  | MalformedPayloadError
  | UnknownTypeError
  | DuplicateTypeError
deriving DecidableEq, Repr

/-- Modelled from the spec: `registerType` (section 4.1): idempotent when the identical
descriptor is registered already, `DuplicateTypeError` when a different descriptor is
registered under the identifier, and an append otherwise. -/
def Registry.registerType (reg : Registry) (T : TypeDescriptor) : Except CodecError Registry :=
  match reg.lookup T.typeId with
  | some T0 => if T0 = T then .ok reg else .error .DuplicateTypeError
  | none => .ok { types := reg.types ++ [T] }

/-- A value of shape `T` that the layout can represent: the object is an instance of `T`,
each value carries the wire type tag of its field, and identifier, field count, tags and
values fit the layout. -/
def fieldsConform {V : Type} (L : WireFormat V) : List FieldDescriptor → List V → Bool
  | [], [] => true
  | f :: fs, v :: vs =>
    decide (L.tagOf v = f.tag) && L.natFits f.tag && L.valueFits v && fieldsConform L fs vs
  | _, _ => false

/-- A value of shape `T`, see `fieldsConform`. -/
def hasShape {V : Type} (L : WireFormat V) (T : TypeDescriptor) (o : TypedObject V) : Bool :=
  decide (o.typeId = T.typeId) && L.natFits T.typeId && L.natFits T.fields.length &&
    fieldsConform L T.fields o.values

/-- Modelled from the spec: the fields part of an encoding (section 4.1): tag and value of
each field, in descriptor order. -/
def encodeFields {V : Type} (L : WireFormat V) : List FieldDescriptor → List V → List Nat
  | f :: fs, v :: vs => L.putNat f.tag ++ L.putValue v ++ encodeFields L fs vs
  | _, _ => []

/-- Modelled from the spec: the encoding of an object of type `T` (section 4.1): type id,
field count, then tag and value of each field in descriptor order. -/
def encodeObject {V : Type} (L : WireFormat V) (T : TypeDescriptor) (o : TypedObject V) :
    List Nat :=
  L.putNat o.typeId ++ L.putNat T.fields.length ++ encodeFields L T.fields o.values

/-- Modelled from the spec: `encode(value, descriptorRegistry)` (section 4.1) for a value
whose type is registered. Registration of an unseen shape on first encode is not modelled:
the result is `none` then. -/
def encode {V : Type} (L : WireFormat V) (reg : Registry) (o : TypedObject V) :
    Option (List Nat) :=
  match reg.lookup o.typeId with
  | some T => some (encodeObject L T o)
  | none => none

/-- Modelled from the spec: the inverse of `encodeFields`: for each field of the descriptor
read the tag, check it against the descriptor, read the value. -/
def decodeFields {V : Type} (L : WireFormat V) :
    List FieldDescriptor → List Nat → Option (List V × List Nat)
  | [], bytes => some ([], bytes)
  | f :: fs, bytes =>
    match L.getNat bytes with
    | none => none
    | some (tag, afterTag) =>
      if tag = f.tag then
        match L.getValue tag afterTag with
        | none => none
        | some (v, afterValue) =>
          match decodeFields L fs afterValue with
          | none => none
          | some (vs, rest) => some (v :: vs, rest)
      else none

/-- Modelled from the spec: `decode(bytes, descriptorRegistry)` (section 4.1), the inverse of
`encode`: read the type id (`UnknownTypeError` when it is not registered), the field count,
then the fields; input that is truncated or does not fit the descriptor is a
`MalformedPayloadError`. -/
def decode {V : Type} (L : WireFormat V) (reg : Registry) (bytes : List Nat) :
    Except CodecError (TypedObject V) :=
  match L.getNat bytes with
  | none => .error .MalformedPayloadError
  | some (typeId, afterId) =>
    match reg.lookup typeId with
    | none => .error .UnknownTypeError
    | some T =>
      match L.getNat afterId with
      | none => .error .MalformedPayloadError
      | some (count, afterCount) =>
        if count = T.fields.length then
          match decodeFields L T.fields afterCount with
          | none => .error .MalformedPayloadError
          | some (vs, _) => .ok { typeId := typeId, values := vs }
        else .error .MalformedPayloadError

/-! ### A concrete layout, for evaluation -/

/-- An unsigned 32-bit integer as four bytes, most significant first. -/
def putU32 (n : Nat) : List Nat :=
  [n / 16777216 % 256, n / 65536 % 256, n / 256 % 256, n % 256]

/-- Four bytes read as an unsigned 32-bit integer. -/
def getU32 : List Nat → Option (Nat × List Nat)
  | b0 :: b1 :: b2 :: b3 :: rest => some (b0 * 16777216 + b1 * 65536 + b2 * 256 + b3, rest)
  | _ => none

/-- Primitive scalar values: 32-bit signed integers and booleans. -/
inductive Scalar where
  | int (n : Int)
  | bool (b : Bool)
deriving DecidableEq, Repr

/-- Wire type tag of a scalar: 1 for an integer, 2 for a boolean. -/
def Scalar.tag : Scalar → Nat
  | .int _ => 1
  | .bool _ => 2

/-- A scalar as bytes: an integer as 32 bits in two's complement, a boolean as one byte. -/
def Scalar.put : Scalar → List Nat
  | .int n => putU32 (n % 4294967296).toNat
  | .bool b => [if b then 1 else 0]

/-- Reads a scalar of the given tag. -/
def Scalar.get (tag : Nat) (bytes : List Nat) : Option (Scalar × List Nat) :=
  if tag = 1 then
    match getU32 bytes with
    | none => none
    | some (m, rest) =>
      some (.int (if m < 2147483648 then (m : Int) else (m : Int) - 4294967296), rest)
  else if tag = 2 then
    match bytes with
    | b :: rest => if b = 0 then some (.bool false, rest)
      else if b = 1 then some (.bool true, rest) else none
    | [] => none
  else none

/-- The scalars the layout represents: integers of 32 bits, and the booleans. -/
def Scalar.fits : Scalar → Bool
  | .int n => decide (-2147483648 ≤ n) && decide (n < 2147483648)
  | .bool _ => true

/-- A layout with 32-bit big-endian integers. -/
def sampleFormat : WireFormat Scalar :=
  { putNat := putU32
    getNat := getU32
    natFits := fun n => decide (n < 4294967296)
    tagOf := Scalar.tag
    putValue := Scalar.put
    getValue := Scalar.get
    valueFits := Scalar.fits }

/-- The type `Point{x:int, y:int}` of scenario A, without identity fields. -/
def pointType : TypeDescriptor :=
  { typeId := 7
    fields := [{ name := "x", tag := 1, isIdentity := false, position := 0 },
      { name := "y", tag := 1, isIdentity := false, position := 1 }] }

/-- A point. -/
def point (x y : Int) : TypedObject Scalar :=
  { typeId := 7, values := [.int x, .int y] }

/-- A type `Trade{id:int (identity), amount:int, open:bool}` with one identity field. -/
def tradeType : TypeDescriptor :=
  { typeId := 9
    fields := [{ name := "id", tag := 1, isIdentity := true, position := 0 },
      { name := "amount", tag := 1, isIdentity := false, position := 1 },
      { name := "open", tag := 2, isIdentity := false, position := 2 }] }

/-- A trade. -/
def trade (id amount : Int) (isOpen : Bool) : TypedObject Scalar :=
  { typeId := 9, values := [.int id, .int amount, .bool isOpen] }

/-- A hash function on lists of scalars, for evaluation. -/
def sampleHash : List Scalar → Nat
  | [] => 17
  | .int n :: rest => (31 * sampleHash rest + (n % 4294967296).toNat) % 4294967296
  | .bool b :: rest => (31 * sampleHash rest + (if b then 1231 else 1237)) % 4294967296

/-- The registry after registering `pointType` and `tradeType` in an empty registry. -/
def sampleRegistry : Registry :=
  { types := [pointType, tradeType] }

end WireCodec

/-! ## Event dispatch of the continuous-query registry (spec section 4.4) -/

namespace CqRegistry

/-- The operation kinds an event frame carries (section 4.4); `SimpleCacheListener.hpp`
declares one callback for each: `afterCreate`, `afterUpdate`, `afterInvalidate`,
`afterDestroy`. -/
inductive OperationKind where
  | create
  | update
  | invalidate
  | destroy
deriving DecidableEq, Repr

/-- Modelled from the spec: an inbound event frame (sections 4.4 and 6): subscription id,
operation kind, and the key and new value handed to the listener. -/
structure EventFrame where
  subscriptionId : Nat
  kind : OperationKind
  key : Nat
  newValue : Nat
deriving DecidableEq, Repr

/-- Modelled from the spec: a continuous query (section 3). The listener is an external
collaborator; its `onEvent` invocations are recorded in `delivered`, oldest first. The
registry code is not among the sources (only the listener declaration
`SimpleCacheListener.hpp` is). -/
structure ContinuousQuery where
  name : String
  queryText : String
  state : CqStateName
  boundEndpoint : Option Nat
  subscriptionId : Option Nat
  delivered : List EventFrame
deriving DecidableEq, Repr

/-- The state error of section 7. -/
inductive CqError where
  | IllegalCqStateError
deriving DecidableEq, Repr

/-- The requests and acknowledgments that drive the state machine of section 4.4, the
failover signals included. -/
inductive Operation where
  | registerAck (endpoint subscriptionId : Nat)
  | stop
  | start
  | close
  | closeAck
  | endpointFailed
  | retriesExhausted
deriving DecidableEq, Repr

/-- Modelled from the spec: the state-transition function of the registry (section 4.4).
`registerAck` takes `INVALID` to `RUNNING` and stores the subscription id; on a `RUNNING`
query without subscription (after a failover) it re-binds the query, which stays
`RUNNING`. `stop`, `start`, `close`, `closeAck` follow the graph. `endpointFailed` resets
bound endpoint and subscription id; `retriesExhausted` forces a `RUNNING` query without
subscription to `STOPPED`. Every other combination, and every operation on a `CLOSED`
query, fails with `IllegalCqStateError`. -/
def transition (q : ContinuousQuery) : Operation → Except CqError ContinuousQuery
  | .registerAck endpoint subscriptionId =>
    match q.state, q.subscriptionId with
    | .INVALID, _ =>
      .ok { q with state := .RUNNING, boundEndpoint := some endpoint,
                   subscriptionId := some subscriptionId }
    | .RUNNING, none =>
      .ok { q with boundEndpoint := some endpoint, subscriptionId := some subscriptionId }
    | _, _ => .error .IllegalCqStateError
  | .stop =>
    match q.state with
    | .RUNNING => .ok { q with state := .STOPPED }
    | _ => .error .IllegalCqStateError
  | .start =>
    match q.state with
    | .STOPPED => .ok { q with state := .RUNNING }
    | _ => .error .IllegalCqStateError
  | .close =>
    match q.state with
    | .RUNNING => .ok { q with state := .CLOSING }
    | .STOPPED => .ok { q with state := .CLOSING }
    | _ => .error .IllegalCqStateError
  | .closeAck =>
    match q.state with
    | .CLOSING => .ok { q with state := .CLOSED }
    | _ => .error .IllegalCqStateError
  | .endpointFailed =>
    match q.state with
    | .CLOSED => .error .IllegalCqStateError
    | _ => .ok { q with boundEndpoint := none, subscriptionId := none }
  | .retriesExhausted =>
    match q.state, q.subscriptionId with
    | .RUNNING, none => .ok { q with state := .STOPPED }
    | _, _ => .error .IllegalCqStateError

/-- Modelled from the spec: event delivery (section 4.4). The query owns the frame when the
frame carries its subscription id; the listener is invoked when the owning query is
`RUNNING`, and the frame is discarded otherwise. -/
def dispatch (q : ContinuousQuery) (f : EventFrame) : ContinuousQuery :=
  if q.subscriptionId = some f.subscriptionId ∧ q.state = .RUNNING then
    { q with delivered := q.delivered ++ [f] }
  else q

/-- What reaches the registry for one query, in order of arrival: an event frame, or an
operation on the query. -/
inductive Input where
  | frame (f : EventFrame)
  | request (op : Operation)
deriving DecidableEq, Repr

/-- One input applied to the query; an operation that fails leaves the query as it is. -/
def step (q : ContinuousQuery) : Input → ContinuousQuery
  | .frame f => dispatch q f
  | .request op =>
    match transition q op with
    | .ok q1 => q1
    | .error _ => q

/-- The query after a sequence of inputs. -/
def run (q : ContinuousQuery) (inputs : List Input) : ContinuousQuery :=
  inputs.foldl step q

/-- The event frames among the inputs, in order of arrival. -/
def arrivals : List Input → List EventFrame
  | [] => []
  | .frame f :: rest => f :: arrivals rest
  | .request _ :: rest => arrivals rest

/-- The query `cq1` of scenario C before registration. -/
def cq1 : ContinuousQuery :=
  { name := "cq1", queryText := "SELECT * FROM /Trades WHERE amount > 100", state := .INVALID,
    boundEndpoint := none, subscriptionId := none, delivered := [] }

/-- A create event of subscription 42 for the given key. -/
def createEvent (key : Nat) : EventFrame :=
  { subscriptionId := 42, kind := .create, key := key, newValue := 100 + key }

end CqRegistry

open GemStone.GemFire.Cache.Generic

/-! ## Helper lemmas on the wrapper -/

theorem StateCodes.distinct_iff (c : StateCodes) :
    c.Distinct ↔
      (c.STOPPED ≠ c.RUNNING ∧ c.STOPPED ≠ c.CLOSED ∧ c.STOPPED ≠ c.CLOSING ∧
        c.STOPPED ≠ c.INVALID) ∧
      (c.RUNNING ≠ c.CLOSED ∧ c.RUNNING ≠ c.CLOSING ∧ c.RUNNING ≠ c.INVALID) ∧
      (c.CLOSED ≠ c.CLOSING ∧ c.CLOSED ≠ c.INVALID) ∧ c.CLOSING ≠ c.INVALID := by
  unfold StateCodes.Distinct
  simp [List.nodup_cons]

theorem StateCodes.code_injective (c : StateCodes) (h : c.Distinct) :
    Function.Injective c.code := by
  rw [StateCodes.distinct_iff] at h
  obtain ⟨⟨h1, h2, h3, h4⟩, ⟨h5, h6, h7⟩, ⟨h8, h9⟩, h10⟩ := h
  intro a b hab
  cases a <;> cases b <;> simp_all [StateCodes.code]

/-- The native state after `SetState` with the enumerator named `s`. -/
theorem SetState_code (N M : StateCodes) (hM : M.Distinct) (self : CqState) (s : CqStateName) :
    (self.SetState N M (M.code s)).NativePtr.m_state = N.code s := by
  rw [StateCodes.distinct_iff] at hM
  obtain ⟨⟨h1, h2, h3, h4⟩, ⟨h5, h6, h7⟩, ⟨h8, h9⟩, h10⟩ := hM
  cases s <;>
    simp [CqState.SetState, gemfire.CqState.setState, StateCodes.code, *, Ne.symm, eq_comm]

/-- The value of `GetState` when the native object holds the enumerator named `p`. -/
theorem GetState_code (N M : StateCodes) (hN : N.Distinct) (self : CqState) (p : CqStateName)
    (hp : self.NativePtr.m_state = N.code p) : self.GetState N M = M.code p := by
  rw [StateCodes.distinct_iff] at hN
  obtain ⟨⟨h1, h2, h3, h4⟩, ⟨h5, h6, h7⟩, ⟨h8, h9⟩, h10⟩ := hN
  obtain ⟨⟨m⟩⟩ := self
  simp only at hp
  subst hp
  cases p <;>
    simp only [CqState.GetState, gemfire.CqState.getState, StateCodes.code] <;>
    split_ifs <;> first | rfl | (exfalso; omega)

theorem StateCodes.mem_all_iff (c : StateCodes) (s : Int) :
    s ∈ c.all ↔ ∃ n : CqStateName, s = c.code n := by
  constructor
  · intro h
    simp only [StateCodes.all, List.mem_cons, List.mem_singleton, List.not_mem_nil,
      or_false] at h
    rcases h with h | h | h | h | h
    · exact ⟨.STOPPED, h⟩
    · exact ⟨.RUNNING, h⟩
    · exact ⟨.CLOSED, h⟩
    · exact ⟨.CLOSING, h⟩
    · exact ⟨.INVALID, h⟩
  · rintro ⟨n, rfl⟩
    cases n <;> simp [StateCodes.all, StateCodes.code]

/-- After `SetState` with the enumerator named `s`, `GetState` returns that enumerator. -/
theorem GetState_SetState_code (N M : StateCodes) (hN : N.Distinct) (hM : M.Distinct)
    (self : CqState) (s : CqStateName) :
    (self.SetState N M (M.code s)).GetState N M = M.code s :=
  GetState_code N M hN _ s (SetState_code N M hM self s)

/-! ## Claims on the wrapper -/

/-- C1: for every managed state `s` among the five enumerators and every prior native state,
`SetState(s)` followed by `GetState()` returns `s`; and on an object whose state reads
`RUNNING`, `SetState(STOPPED)` then `SetState(RUNNING)` is observed through `GetState` as
`RUNNING`, `STOPPED`, `RUNNING`. -/
theorem CqState_SetState_then_GetState (N M : StateCodes) (hN : N.Distinct) (hM : M.Distinct)
    (self : CqState) :
    (∀ s ∈ M.all, (self.SetState N M s).GetState N M = s) ∧
    (self.GetState N M = M.RUNNING →
      [self.GetState N M,
        (self.SetState N M M.STOPPED).GetState N M,
        ((self.SetState N M M.STOPPED).SetState N M M.RUNNING).GetState N M]
        = [M.RUNNING, M.STOPPED, M.RUNNING]) := by
  refine ⟨?_, ?_⟩
  · intro s hs
    obtain ⟨n, rfl⟩ := (M.mem_all_iff s).1 hs
    exact GetState_SetState_code N M hN hM self n
  · intro h
    have h1 := GetState_SetState_code N M hN hM self .STOPPED
    have h2 := GetState_SetState_code N M hN hM (self.SetState N M M.STOPPED) .RUNNING
    simp only [StateCodes.code] at h1 h2
    rw [h, h1, h2]

/-- Evaluation at the sample enumerators: `SetState(INVALID)` on a `CLOSING` object, and the
sequence `RUNNING`, `STOPPED`, `RUNNING`. -/
theorem CqState_SetState_then_GetState_witness :
    sampleCodes.Distinct ∧
    ((CqState.holding sampleCodes .CLOSING).SetState sampleCodes sampleCodes
        sampleCodes.INVALID).GetState sampleCodes sampleCodes = sampleCodes.INVALID ∧
    [(CqState.holding sampleCodes .RUNNING).GetState sampleCodes sampleCodes,
      ((CqState.holding sampleCodes .RUNNING).SetState sampleCodes sampleCodes
        sampleCodes.STOPPED).GetState sampleCodes sampleCodes,
      (((CqState.holding sampleCodes .RUNNING).SetState sampleCodes sampleCodes
        sampleCodes.STOPPED).SetState sampleCodes sampleCodes
          sampleCodes.RUNNING).GetState sampleCodes sampleCodes]
      = [sampleCodes.RUNNING, sampleCodes.STOPPED, sampleCodes.RUNNING] :=
  ⟨by decide,
    (CqState_SetState_then_GetState sampleCodes sampleCodes (by decide) (by decide)
      (CqState.holding sampleCodes .CLOSING)).1 sampleCodes.INVALID (by decide),
    (CqState_SetState_then_GetState sampleCodes sampleCodes (by decide) (by decide)
      (CqState.holding sampleCodes .RUNNING)).2 (by decide)⟩

/-- C2: `GetState` is a total function whose value is one of the five managed enumerators; for
native `STOPPED`, `RUNNING`, `CLOSED`, `CLOSING` it is the managed enumerator of the same
name, and for every other native value, `INVALID` included, it is `INVALID`. -/
theorem CqState_GetState_cases (N M : StateCodes) (hN : N.Distinct) (self : CqState) :
    self.GetState N M ∈ M.all ∧
    (self.NativePtr.getState = N.STOPPED → self.GetState N M = M.STOPPED) ∧
    (self.NativePtr.getState = N.RUNNING → self.GetState N M = M.RUNNING) ∧
    (self.NativePtr.getState = N.CLOSED → self.GetState N M = M.CLOSED) ∧
    (self.NativePtr.getState = N.CLOSING → self.GetState N M = M.CLOSING) ∧
    (self.NativePtr.getState = N.INVALID → self.GetState N M = M.INVALID) ∧
    (self.NativePtr.getState ∉ [N.STOPPED, N.RUNNING, N.CLOSED, N.CLOSING] →
      self.GetState N M = M.INVALID) := by
  refine ⟨?_, ?_, ?_, ?_, ?_, ?_, ?_⟩
  · simp only [CqState.GetState, StateCodes.all]
    split_ifs <;> simp
  · exact fun h => GetState_code N M hN self .STOPPED h
  · exact fun h => GetState_code N M hN self .RUNNING h
  · exact fun h => GetState_code N M hN self .CLOSED h
  · exact fun h => GetState_code N M hN self .CLOSING h
  · exact fun h => GetState_code N M hN self .INVALID h
  · intro h
    simp only [List.mem_cons, List.mem_singleton, List.not_mem_nil, or_false, not_or] at h
    obtain ⟨h1, h2, h3, h4⟩ := h
    simp only [CqState.GetState]
    rw [if_neg h1, if_neg h2, if_neg h3, if_neg h4]

/-- Evaluation at the sample enumerators: native values 3 (`CLOSING`) and 7 (none of the
five). -/
theorem CqState_GetState_cases_witness :
    sampleCodes.Distinct ∧
    (CqState.mk ⟨7⟩).GetState sampleCodes sampleCodes ∈ sampleCodes.all ∧
    (CqState.mk ⟨3⟩).GetState sampleCodes sampleCodes = sampleCodes.CLOSING ∧
    (CqState.mk ⟨7⟩).GetState sampleCodes sampleCodes = sampleCodes.INVALID :=
  ⟨by decide,
    (CqState_GetState_cases sampleCodes sampleCodes (by decide) (CqState.mk ⟨7⟩)).1,
    (CqState_GetState_cases sampleCodes sampleCodes (by decide) (CqState.mk ⟨3⟩)).2.2.2.2.1
      (by decide),
    (CqState_GetState_cases sampleCodes sampleCodes (by decide) (CqState.mk ⟨7⟩)).2.2.2.2.2.2
      (by decide)⟩

/-- C8: `SetState` is a total function without an error path: for every prior object and every
argument it sets the native state to the native enumerator of the same name when the argument
is managed `STOPPED`, `RUNNING`, `CLOSED` or `CLOSING`, and to native `INVALID` for every
other argument (`INVALID` or a value outside the enumeration); the result is the same for
every prior object. -/
theorem CqState_SetState_cases (N M : StateCodes) (hM : M.Distinct) (self : CqState)
    (state : Int) :
    (state = M.STOPPED → (self.SetState N M state).NativePtr.getState = N.STOPPED) ∧
    (state = M.RUNNING → (self.SetState N M state).NativePtr.getState = N.RUNNING) ∧
    (state = M.CLOSED → (self.SetState N M state).NativePtr.getState = N.CLOSED) ∧
    (state = M.CLOSING → (self.SetState N M state).NativePtr.getState = N.CLOSING) ∧
    (state = M.INVALID → (self.SetState N M state).NativePtr.getState = N.INVALID) ∧
    (state ∉ [M.STOPPED, M.RUNNING, M.CLOSED, M.CLOSING] →
      (self.SetState N M state).NativePtr.getState = N.INVALID) ∧
    (∀ other : CqState, other.SetState N M state = self.SetState N M state) := by
  refine ⟨?_, ?_, ?_, ?_, ?_, ?_, ?_⟩
  · rintro rfl; exact SetState_code N M hM self .STOPPED
  · rintro rfl; exact SetState_code N M hM self .RUNNING
  · rintro rfl; exact SetState_code N M hM self .CLOSED
  · rintro rfl; exact SetState_code N M hM self .CLOSING
  · rintro rfl; exact SetState_code N M hM self .INVALID
  · intro h
    simp only [List.mem_cons, List.mem_singleton, List.not_mem_nil, or_false, not_or] at h
    obtain ⟨h1, h2, h3, h4⟩ := h
    simp only [CqState.SetState, gemfire.CqState.setState, gemfire.CqState.getState]
    rw [if_neg h1, if_neg h2, if_neg h3, if_neg h4]
  · intro other
    rfl

/-- Evaluation at the sample enumerators: arguments 1 (`RUNNING`) and -3 (none of the five) on a
`CLOSED` object. -/
theorem CqState_SetState_cases_witness :
    sampleCodes.Distinct ∧
    ((CqState.holding sampleCodes .CLOSED).SetState sampleCodes sampleCodes
      1).NativePtr.getState = sampleCodes.RUNNING ∧
    ((CqState.holding sampleCodes .CLOSED).SetState sampleCodes sampleCodes
      (-3)).NativePtr.getState = sampleCodes.INVALID :=
  ⟨by decide,
    (CqState_SetState_cases sampleCodes sampleCodes (by decide)
      (CqState.holding sampleCodes .CLOSED) 1).2.1 (by decide),
    (CqState_SetState_cases sampleCodes sampleCodes (by decide)
      (CqState.holding sampleCodes .CLOSED) (-3)).2.2.2.2.2.1 (by decide)⟩

/-- C3, counterexample: a `CqState` that reads `CLOSED` reads `RUNNING` after
`SetState(RUNNING)`; the state has changed, and `CLOSED` to `RUNNING` is not an edge of the
graph of section 4.4. -/
theorem CqState_SetState_leaves_graph :
    (CqState.holding sampleCodes .CLOSED).GetState sampleCodes sampleCodes
      = sampleCodes.CLOSED ∧
    ((CqState.holding sampleCodes .CLOSED).SetState sampleCodes sampleCodes
      sampleCodes.RUNNING).GetState sampleCodes sampleCodes = sampleCodes.RUNNING ∧
    sampleCodes.RUNNING ≠ sampleCodes.CLOSED ∧
    specGraphEdge .CLOSED .RUNNING = false := by
  decide

/-- C3, amended: `SetState` does not consult the graph of section 4.4. For every prior state
`p` and every argument `s` among the five states, an object that reads `p` reads `s` after
`SetState(s)`, whether or not `(p, s)` is an edge; each edge of the graph is such a change
to a different state. -/
theorem CqState_SetState_any_pair (N M : StateCodes) (hN : N.Distinct) (hM : M.Distinct)
    (p s : CqStateName) :
    (CqState.holding N p).GetState N M = M.code p ∧
    ((CqState.holding N p).SetState N M (M.code s)).GetState N M = M.code s ∧
    (specGraphEdge p s = true → M.code s ≠ M.code p) := by
  refine ⟨GetState_code N M hN _ p rfl, GetState_SetState_code N M hN hM _ s, ?_⟩
  intro he hc
  have := M.code_injective hM hc
  subst this
  cases s <;> simp [specGraphEdge] at he

/-- Evaluation at the sample enumerators: `INVALID` to `CLOSED`, which is not an edge, and the
edge `RUNNING` to `STOPPED`. -/
theorem CqState_SetState_any_pair_witness :
    sampleCodes.Distinct ∧
    (CqState.holding sampleCodes .INVALID).GetState sampleCodes sampleCodes
      = sampleCodes.code .INVALID ∧
    ((CqState.holding sampleCodes .INVALID).SetState sampleCodes sampleCodes
      (sampleCodes.code .CLOSED)).GetState sampleCodes sampleCodes
        = sampleCodes.code .CLOSED ∧
    sampleCodes.code .STOPPED ≠ sampleCodes.code .RUNNING :=
  ⟨by decide,
    (CqState_SetState_any_pair sampleCodes sampleCodes (by decide) (by decide)
      .INVALID .CLOSED).1,
    (CqState_SetState_any_pair sampleCodes sampleCodes (by decide) (by decide)
      .INVALID .CLOSED).2.1,
    (CqState_SetState_any_pair sampleCodes sampleCodes (by decide) (by decide)
      .RUNNING .STOPPED).2.2 (by decide)⟩

/-- C4, counterexample: on a `CqState` that reads `CLOSED`, `SetState(STOPPED)` completes and
`GetState()` afterwards returns `STOPPED`, not `CLOSED`. -/
theorem CqState_CLOSED_not_terminal :
    (CqState.holding sampleCodes .CLOSED).GetState sampleCodes sampleCodes
      = sampleCodes.CLOSED ∧
    ((CqState.holding sampleCodes .CLOSED).SetState sampleCodes sampleCodes
      sampleCodes.STOPPED).GetState sampleCodes sampleCodes = sampleCodes.STOPPED ∧
    ((CqState.holding sampleCodes .CLOSED).SetState sampleCodes sampleCodes
      sampleCodes.STOPPED).GetState sampleCodes sampleCodes ≠ sampleCodes.CLOSED := by
  decide

/-- C4, amended: `SetState` does not check the prior state and has no error path. On every
object whose state reads `CLOSED`, `SetState(s)` for `s` among the five states yields an
object that reads `s`; what it reads is unchanged exactly when `s` is `CLOSED`. -/
theorem CqState_SetState_on_CLOSED (N M : StateCodes) (hN : N.Distinct) (hM : M.Distinct)
    (self : CqState) (hclosed : self.GetState N M = M.CLOSED) (s : CqStateName) :
    (self.SetState N M (M.code s)).GetState N M = M.code s ∧
    ((self.SetState N M (M.code s)).GetState N M = self.GetState N M ↔ s = .CLOSED) := by
  have h := GetState_SetState_code N M hN hM self s
  refine ⟨h, ?_⟩
  rw [h, hclosed]
  constructor
  · intro hc
    exact M.code_injective hM hc
  · rintro rfl
    rfl

/-- Evaluation at the sample enumerators: `SetState(RUNNING)` on a `CLOSED` object. -/
theorem CqState_SetState_on_CLOSED_witness :
    sampleCodes.Distinct ∧
    (CqState.holding sampleCodes .CLOSED).GetState sampleCodes sampleCodes
      = sampleCodes.CLOSED ∧
    ((CqState.holding sampleCodes .CLOSED).SetState sampleCodes sampleCodes
      (sampleCodes.code .RUNNING)).GetState sampleCodes sampleCodes
        = sampleCodes.code .RUNNING :=
  ⟨by decide, by decide,
    (CqState_SetState_on_CLOSED sampleCodes sampleCodes (by decide) (by decide)
      (CqState.holding sampleCodes .CLOSED) (by decide) .RUNNING).1⟩

/-! ## The quickstart driver: lemmas and claim -/

namespace PoolRemoteQuery

theorem runCalls_append (w : World) (cs1 cs2 trace : List Call) :
    runCalls w (cs1 ++ cs2) trace =
      match runCalls w cs1 trace with
      | (.ok _, trace1) => runCalls w cs2 trace1
      | (.error e, trace1) => (.error e, trace1) := by
  induction cs1 generalizing trace with
  | nil => rfl
  | cons c cs ih =>
    simp only [List.cons_append, runCalls]
    cases w.outcome c with
    | completes => exact ih (trace ++ [c])
    | raisesException => rfl
    | failsOtherwise => rfl

/-- Two pieces in sequence make the steps of the first, then the steps of the second. -/
theorem andThen_eq_runCalls (w : World) (m k : Exec Unit) (cs1 cs2 : List Call)
    (hm : m = runCalls w cs1) (hk : k = runCalls w cs2) :
    (m >>= fun _ => k) = runCalls w (cs1 ++ cs2) := by
  funext trace
  show Exec.andThen m (fun _ => k) trace = _
  rw [runCalls_append, Exec.andThen, hm, hk]
  generalize runCalls w cs1 trace = r
  obtain ⟨r, t⟩ := r
  cases r <;> rfl

theorem call_eq_runCalls (w : World) (c : Call) : call w c = runCalls w [c] := by
  funext trace
  simp only [call, runCalls]

theorem whileHasNext_eq_runCalls (w : World) (remaining row : Nat) :
    whileHasNext w remaining row =
      runCalls w ((List.range remaining).flatMap
          (fun i => [.hasNext (row + i), .next (row + i), .logColumn (row + i) 0,
            .logColumn (row + i) 1])
        ++ [.hasNext (row + remaining)]) := by
  induction remaining generalizing row with
  | zero => simpa [whileHasNext] using call_eq_runCalls w (.hasNext row)
  | succ n ih =>
    have hlist : (List.range (n + 1)).flatMap
          (fun i => [Call.hasNext (row + i), .next (row + i), .logColumn (row + i) 0,
            .logColumn (row + i) 1])
        ++ [.hasNext (row + (n + 1))]
        = [.hasNext row] ++ ([.next row] ++ ([.logColumn row 0] ++ ([.logColumn row 1] ++
            ((List.range n).flatMap
              (fun i => [Call.hasNext (row + 1 + i), .next (row + 1 + i),
                .logColumn (row + 1 + i) 0, .logColumn (row + 1 + i) 1])
            ++ [.hasNext (row + 1 + n)])))) := by
      rw [List.range_succ_eq_map]
      simp [List.flatMap, Function.comp_def, Nat.add_assoc, Nat.add_comm 1]
    rw [hlist]
    unfold whileHasNext
    exact andThen_eq_runCalls w _ _ _ _ (call_eq_runCalls w _)
      (andThen_eq_runCalls w _ _ _ _ (call_eq_runCalls w _)
        (andThen_eq_runCalls w _ _ _ _ (call_eq_runCalls w _)
          (andThen_eq_runCalls w _ _ _ _ (call_eq_runCalls w _) (ih (row + 1)))))

/-- The `try` block makes the listed steps, in the listed order. -/
theorem tryBlock_eq_runCalls (w : World) : tryBlock w = runCalls w (listedSteps w.rows) := by
  have hloop := whileHasNext_eq_runCalls w w.rows 0
  simp only [Nat.zero_add] at hloop
  have hlist : listedSteps w.rows =
      [.createCacheFactory] ++ ([.setCacheXmlFile] ++ ([.createCache] ++ ([.getRegion] ++
      ([.registerPortfolio] ++ ([.registerPosition] ++ ([.newPortfolio 1] ++
      ([.newPortfolio 2] ++ ([.newPortfolio 3] ++ ([.put 1] ++ ([.put 2] ++ ([.put 3] ++
      ([.getQueryService] ++ ([.newQuery 1] ++ ([.execute 1] ++ ([.resultSize 1] ++
      ([.newQuery 2] ++ ([.execute 2] ++ ([.resultSize 2] ++ ([.getIterator] ++
      (((List.range w.rows).flatMap
          (fun i => [Call.hasNext i, .next i, .logColumn i 0, .logColumn i 1])
        ++ [.hasNext w.rows]) ++
      ([.regionQuery] ++ ([.resultSize 3] ++ ([.selectValue] ++ ([.dynCastPortfolio] ++
      ([.portfolioToString] ++ ([.existsValue] ++ [.closeCache]
      )))))))))))))))))))))))))) := by
    simp [listedSteps]
  rw [hlist]
  unfold tryBlock
  repeat (first
    | exact call_eq_runCalls w _
    | refine andThen_eq_runCalls w _ _ _ _ (call_eq_runCalls w _) ?_
    | refine andThen_eq_runCalls w _ _ _ _ hloop ?_)

theorem runCalls_all_complete (w : World) (cs trace : List Call)
    (h : ∀ c ∈ cs, w.outcome c = .completes) :
    runCalls w cs trace = (.ok (), trace ++ cs) := by
  induction cs generalizing trace with
  | nil => simp [runCalls]
  | cons c cs ih =>
    have hc : w.outcome c = .completes := h c (List.mem_cons_self _ _)
    simp only [runCalls, hc]
    rw [ih _ (fun x hx => h x (List.mem_cons_of_mem _ hx))]
    simp

theorem runCalls_ok_iff (w : World) (cs trace : List Call) :
    (∃ t, runCalls w cs trace = (.ok (), t)) ↔ ∀ c ∈ cs, w.outcome c = .completes := by
  induction cs generalizing trace with
  | nil => simp [runCalls]
  | cons c cs ih =>
    simp only [runCalls, List.mem_cons, forall_eq_or_imp]
    cases hc : w.outcome c with
    | completes => simpa using ih _
    | raisesException => simp
    | failsOtherwise => simp

theorem runCalls_first_failure (w : World) (pre post trace : List Call) (c : Call)
    (hpre : ∀ x ∈ pre, w.outcome x = .completes) :
    runCalls w (pre ++ c :: post) trace =
      match w.outcome c with
      | .completes => runCalls w post (trace ++ pre ++ [c])
      | .raisesException => (.error .geodeException, trace ++ pre ++ [c])
      | .failsOtherwise => (.error .other, trace ++ pre ++ [c]) := by
  rw [runCalls_append, runCalls_all_complete w pre trace hpre]
  simp only [runCalls]

theorem main_exit_zero_iff (w : World) :
    (main w).exit = .returned 0 ↔ ∀ c ∈ listedSteps w.rows, w.outcome c = .completes := by
  rw [← runCalls_ok_iff w _ []]
  unfold main
  rw [tryBlock_eq_runCalls]
  rcases runCalls w (listedSteps w.rows) [] with ⟨r, t⟩
  rcases r with e | u
  · cases e <;> simp
  · simp

theorem main_eq_of_all_complete (w : World)
    (h : ∀ c ∈ listedSteps w.rows, w.outcome c = .completes) :
    main w = { exit := .returned 0, trace := listedSteps w.rows } := by
  simp [main, tryBlock_eq_runCalls, runCalls_all_complete w _ [] h]

theorem main_eq_of_first_exception (w : World) (pre post : List Call) (c : Call)
    (hsplit : listedSteps w.rows = pre ++ c :: post)
    (hpre : ∀ x ∈ pre, w.outcome x = .completes) (hc : w.outcome c = .raisesException) :
    main w = { exit := .returned 1, trace := pre ++ [c] } := by
  simp [main, tryBlock_eq_runCalls, hsplit, runCalls_first_failure w pre post [] c hpre, hc]

theorem listedSteps_eq_append_closeCache (rows : Nat) :
    ∃ before, listedSteps rows = before ++ [Call.closeCache] ∧ Call.closeCache ∉ before := by
  refine ⟨[.createCacheFactory, .setCacheXmlFile, .createCache, .getRegion,
      .registerPortfolio, .registerPosition, .newPortfolio 1, .newPortfolio 2,
      .newPortfolio 3, .put 1, .put 2, .put 3, .getQueryService, .newQuery 1, .execute 1,
      .resultSize 1, .newQuery 2, .execute 2, .resultSize 2, .getIterator]
    ++ (List.range rows).flatMap
      (fun row => [.hasNext row, .next row, .logColumn row 0, .logColumn row 1])
    ++ [.hasNext rows, .regionQuery, .resultSize 3, .selectValue, .dynCastPortfolio,
      .portfolioToString, .existsValue], ?_, ?_⟩
  · simp [listedSteps]
  · simp [List.mem_flatMap]

theorem not_mem_of_proper_split (rows : Nat) (pre post : List Call) (c : Call)
    (hsplit : listedSteps rows = pre ++ c :: post) (hpost : post ≠ []) :
    Call.closeCache ∉ pre ++ [c] := by
  obtain ⟨before, hbefore, hnot⟩ := listedSteps_eq_append_closeCache rows
  have hlast := List.dropLast_append_getLast hpost
  rw [← hlast, hbefore] at hsplit
  have h2 : before ++ [Call.closeCache]
      = (pre ++ c :: post.dropLast) ++ [post.getLast hpost] := by
    rw [hsplit]
    simp
  have h3 := (List.append_inj' h2 rfl).1
  rw [h3] at hnot
  intro hmem
  apply hnot
  simp only [List.mem_append, List.mem_cons, List.mem_singleton, List.not_mem_nil,
    or_false] at hmem ⊢
  rcases hmem with hmem | hmem
  · exact Or.inl hmem
  · exact Or.inr (Or.inl hmem)

end PoolRemoteQuery

/-- C10: `main` returns 0 exactly when every listed step (create cache, get region, register
types, three puts, get query service, both queries, row iteration, region query,
`selectValue`, `existsValue`, close cache) completes; it has then made all the steps in the
listed order, the last of which closes the cache. If the first step that does not complete
raises a Geode `Exception`, `main` returns 1, the steps made end with that step, and, when
that step is not the last one, the cache is not closed. -/
theorem PoolRemoteQuery_main_exit (w : PoolRemoteQuery.World) :
    ((PoolRemoteQuery.main w).exit = .returned 0 ↔
      ∀ c ∈ PoolRemoteQuery.listedSteps w.rows, w.outcome c = .completes) ∧
    ((PoolRemoteQuery.main w).exit = .returned 0 →
      (PoolRemoteQuery.main w).trace = PoolRemoteQuery.listedSteps w.rows ∧
      (PoolRemoteQuery.main w).trace.getLast? = some .closeCache) ∧
    (∀ (pre post : List PoolRemoteQuery.Call) (c : PoolRemoteQuery.Call),
      PoolRemoteQuery.listedSteps w.rows = pre ++ c :: post →
      (∀ x ∈ pre, w.outcome x = .completes) → w.outcome c = .raisesException →
      (PoolRemoteQuery.main w).exit = .returned 1 ∧
      (PoolRemoteQuery.main w).trace = pre ++ [c] ∧
      (post ≠ [] → PoolRemoteQuery.Call.closeCache ∉ (PoolRemoteQuery.main w).trace)) := by
  have hiff := PoolRemoteQuery.main_exit_zero_iff w
  refine ⟨hiff, ?_, ?_⟩
  · intro h0
    rw [PoolRemoteQuery.main_eq_of_all_complete w (hiff.1 h0)]
    obtain ⟨before, hbefore, _⟩ := PoolRemoteQuery.listedSteps_eq_append_closeCache w.rows
    refine ⟨rfl, ?_⟩
    simp only [hbefore]
    simp
  · intro pre post c hsplit hpre hc
    rw [PoolRemoteQuery.main_eq_of_first_exception w pre post c hsplit hpre hc]
    exact ⟨rfl, rfl, PoolRemoteQuery.not_mem_of_proper_split w.rows pre post c hsplit⟩

/-- Three runs. With one row and every step completing, `main` returns 0 after the steps
shown. With two rows and the second `put` raising a Geode exception, `main` returns 1 and
stops there. With two rows and the second log line of the first row raising, `main`
returns 1 inside the loop. -/
theorem PoolRemoteQuery_main_exit_witness :
    PoolRemoteQuery.main (PoolRemoteQuery.calmWorld 1)
      = { exit := .returned 0,
          trace := [.createCacheFactory, .setCacheXmlFile, .createCache, .getRegion,
            .registerPortfolio, .registerPosition, .newPortfolio 1, .newPortfolio 2,
            .newPortfolio 3, .put 1, .put 2, .put 3, .getQueryService, .newQuery 1,
            .execute 1, .resultSize 1, .newQuery 2, .execute 2, .resultSize 2, .getIterator,
            .hasNext 0, .next 0, .logColumn 0 0, .logColumn 0 1, .hasNext 1,
            .regionQuery, .resultSize 3, .selectValue, .dynCastPortfolio,
            .portfolioToString, .existsValue, .closeCache] } ∧
    (PoolRemoteQuery.main (PoolRemoteQuery.calmWorld 1)).exit = .returned 0 ∧
    (PoolRemoteQuery.main (PoolRemoteQuery.calmWorld 1)).trace.getLast? = some .closeCache ∧
    (PoolRemoteQuery.main (PoolRemoteQuery.worldRaisingAt (.put 2) 2)).exit = .returned 1 ∧
    (PoolRemoteQuery.main (PoolRemoteQuery.worldRaisingAt (.put 2) 2)).trace
      = [.createCacheFactory, .setCacheXmlFile, .createCache, .getRegion,
          .registerPortfolio, .registerPosition, .newPortfolio 1, .newPortfolio 2,
          .newPortfolio 3, .put 1] ++ [.put 2] ∧
    (PoolRemoteQuery.main (PoolRemoteQuery.worldRaisingAt (.logColumn 0 1) 2)).exit
      = .returned 1 ∧
    (PoolRemoteQuery.main (PoolRemoteQuery.worldRaisingAt (.logColumn 0 1) 2)).trace
      = [.createCacheFactory, .setCacheXmlFile, .createCache, .getRegion,
          .registerPortfolio, .registerPosition, .newPortfolio 1, .newPortfolio 2,
          .newPortfolio 3, .put 1, .put 2, .put 3, .getQueryService, .newQuery 1,
          .execute 1, .resultSize 1, .newQuery 2, .execute 2, .resultSize 2, .getIterator,
          .hasNext 0, .next 0, .logColumn 0 0] ++ [.logColumn 0 1] :=
  ⟨by decide,
    (PoolRemoteQuery_main_exit (PoolRemoteQuery.calmWorld 1)).1.2 (fun _ _ => rfl),
    ((PoolRemoteQuery_main_exit (PoolRemoteQuery.calmWorld 1)).2.1
      ((PoolRemoteQuery_main_exit (PoolRemoteQuery.calmWorld 1)).1.2 (fun _ _ => rfl))).2,
    ((PoolRemoteQuery_main_exit (PoolRemoteQuery.worldRaisingAt (.put 2) 2)).2.2
      [.createCacheFactory, .setCacheXmlFile, .createCache, .getRegion,
        .registerPortfolio, .registerPosition, .newPortfolio 1, .newPortfolio 2,
        .newPortfolio 3, .put 1]
      _ (.put 2) rfl (by decide) (by decide)).1,
    ((PoolRemoteQuery_main_exit (PoolRemoteQuery.worldRaisingAt (.put 2) 2)).2.2
      [.createCacheFactory, .setCacheXmlFile, .createCache, .getRegion,
        .registerPortfolio, .registerPosition, .newPortfolio 1, .newPortfolio 2,
        .newPortfolio 3, .put 1]
      _ (.put 2) rfl (by decide) (by decide)).2.1,
    ((PoolRemoteQuery_main_exit (PoolRemoteQuery.worldRaisingAt (.logColumn 0 1) 2)).2.2
      [.createCacheFactory, .setCacheXmlFile, .createCache, .getRegion,
        .registerPortfolio, .registerPosition, .newPortfolio 1, .newPortfolio 2,
        .newPortfolio 3, .put 1, .put 2, .put 3, .getQueryService, .newQuery 1,
        .execute 1, .resultSize 1, .newQuery 2, .execute 2, .resultSize 2, .getIterator,
        .hasNext 0, .next 0, .logColumn 0 0]
      _ (.logColumn 0 1) rfl (by decide) (by decide)).1,
    ((PoolRemoteQuery_main_exit (PoolRemoteQuery.worldRaisingAt (.logColumn 0 1) 2)).2.2
      [.createCacheFactory, .setCacheXmlFile, .createCache, .getRegion,
        .registerPortfolio, .registerPosition, .newPortfolio 1, .newPortfolio 2,
        .newPortfolio 3, .put 1, .put 2, .put 3, .getQueryService, .newQuery 1,
        .execute 1, .resultSize 1, .newQuery 2, .execute 2, .resultSize 2, .getIterator,
        .hasNext 0, .next 0, .logColumn 0 0]
      _ (.logColumn 0 1) rfl (by decide) (by decide)).2.1⟩



/-! ## Typed objects: identity-field equality -/

namespace WireCodec

theorem selectValues_eq_of_agreeOn {V : Type} [DecidableEq V] (keep : FieldDescriptor → Bool)
    (fs : List FieldDescriptor) (as bs : List V) (ha : as.length = fs.length)
    (hb : bs.length = fs.length) (h : agreeOn keep fs as bs = true) :
    selectValues keep fs as = selectValues keep fs bs := by
  induction fs generalizing as bs with
  | nil =>
    cases as <;> cases bs <;> simp_all [selectValues]
  | cons f fs ih =>
    cases as with
    | nil => simp at ha
    | cons a as =>
      cases bs with
      | nil => simp at hb
      | cons b bs =>
        simp only [List.length_cons, Nat.add_right_cancel_iff] at ha hb
        simp only [agreeOn, Bool.and_eq_true, Bool.or_eq_true, Bool.not_eq_true',
          decide_eq_true_eq] at h
        have htail := ih as bs ha hb h.2
        simp only [selectValues]
        by_cases hk : keep f = true
        · rcases h.1 with h1 | h1
          · rw [h1] at hk; cases hk
          · simp [hk, h1, htail]
        · simp [hk, htail]

theorem agreeOn_of_selectValues_eq {V : Type} [DecidableEq V] (keep : FieldDescriptor → Bool)
    (fs : List FieldDescriptor) (as bs : List V) (ha : as.length = fs.length)
    (hb : bs.length = fs.length) (h : selectValues keep fs as = selectValues keep fs bs) :
    agreeOn keep fs as bs = true := by
  induction fs generalizing as bs with
  | nil =>
    cases as <;> cases bs <;> simp_all [agreeOn]
  | cons f fs ih =>
    cases as with
    | nil => simp at ha
    | cons a as =>
      cases bs with
      | nil => simp at hb
      | cons b bs =>
        simp only [List.length_cons, Nat.add_right_cancel_iff] at ha hb
        simp only [agreeOn, Bool.and_eq_true, Bool.or_eq_true, Bool.not_eq_true',
          decide_eq_true_eq]
        by_cases hk : keep f = true
        · simp only [selectValues, hk, if_true, List.cons.injEq] at h
          exact ⟨Or.inr h.1, ih as bs ha hb h.2⟩
        · simp only [selectValues, hk, Bool.false_eq_true, if_false] at h
          exact ⟨Or.inl (by simpa using hk), ih as bs ha hb h⟩

theorem selectValues_all {V : Type} (keep : FieldDescriptor → Bool)
    (fs : List FieldDescriptor) (vs : List V) (hlen : vs.length = fs.length)
    (hkeep : ∀ f ∈ fs, keep f = true) : selectValues keep fs vs = vs := by
  induction fs generalizing vs with
  | nil =>
    cases vs with
    | nil => rfl
    | cons v vs => simp at hlen
  | cons f fs ih =>
    cases vs with
    | nil => simp at hlen
    | cons v vs =>
      simp only [List.length_cons, Nat.add_right_cancel_iff] at hlen
      have hf : keep f = true := hkeep f (List.mem_cons_self _ _)
      simp [selectValues, hf, ih vs hlen (fun g hg => hkeep g (List.mem_cons_of_mem _ hg))]

theorem participates_of_hasIdentity (T : TypeDescriptor) (h : T.hasIdentity = true) :
    T.participates = fun f => f.isIdentity := by
  funext f
  simp [TypeDescriptor.participates, h]

theorem participates_of_not_hasIdentity (T : TypeDescriptor) (h : T.hasIdentity = false)
    (f : FieldDescriptor) : T.participates f = true := by
  simp [TypeDescriptor.participates, h]

theorem comparedValues_of_not_hasIdentity {V : Type} (T : TypeDescriptor)
    (h : T.hasIdentity = false) (o : TypedObject V) (ho : isInstance T o = true) :
    comparedValues T o = o.values := by
  simp only [isInstance, Bool.and_eq_true, decide_eq_true_eq] at ho
  exact selectValues_all _ _ _ ho.2 (fun f _ => participates_of_not_hasIdentity T h f)

theorem objEquals_refl {V : Type} [DecidableEq V] (T : TypeDescriptor) (o : TypedObject V) :
    objEquals T o o = true := by
  simp [objEquals]

end WireCodec

/-- Scenario A of the spec, equality part: `Point{x, y}` marks no identity field; the points
`{1, 2}` and `{1, 3}` are not equal, and `{1, 2}` equals a second `{1, 2}`. -/
theorem WireCodec_point_equality :
    WireCodec.pointType.hasIdentity = false ∧
    WireCodec.objEquals WireCodec.pointType (WireCodec.point 1 2) (WireCodec.point 1 2)
      = true ∧
    WireCodec.objEquals WireCodec.pointType (WireCodec.point 1 2) (WireCodec.point 1 3)
      = false := by
  decide

/-- C5: equality and hash code of a typed object are computed over the identity-marked fields
only. Two instances of a type are equal exactly when they agree on all identity-marked
fields, whatever their other fields hold, and when the type marks no field as identity,
exactly when all their fields are equal; equal instances have the same hash code. -/
theorem WireCodec_equality_over_identity_fields {V : Type} [DecidableEq V]
    (hashOf : List V → Nat) (T : WireCodec.TypeDescriptor) (a b : WireCodec.TypedObject V)
    (ha : WireCodec.isInstance T a = true) (hb : WireCodec.isInstance T b = true) :
    (WireCodec.objEquals T a b = true ↔
      if T.hasIdentity = true then WireCodec.agreeOnIdentity T a b = true
      else a.values = b.values) ∧
    (WireCodec.objEquals T a b = true →
      WireCodec.objHashCode hashOf T a = WireCodec.objHashCode hashOf T b) := by
  have ha0 := ha
  have hb0 := hb
  simp only [WireCodec.isInstance, Bool.and_eq_true, decide_eq_true_eq] at ha hb
  have hid : a.typeId = b.typeId := by rw [ha.1, hb.1]
  have heq : WireCodec.objEquals T a b = true ↔
      WireCodec.comparedValues T a = WireCodec.comparedValues T b := by
    simp [WireCodec.objEquals, hid]
  refine ⟨?_, ?_⟩
  · rw [heq]
    by_cases hT : T.hasIdentity = true
    · rw [if_pos hT]
      unfold WireCodec.comparedValues WireCodec.agreeOnIdentity
      rw [WireCodec.participates_of_hasIdentity T hT]
      exact ⟨WireCodec.agreeOn_of_selectValues_eq _ _ _ _ ha.2 hb.2,
        WireCodec.selectValues_eq_of_agreeOn _ _ _ _ ha.2 hb.2⟩
    · rw [if_neg hT]
      have hF : T.hasIdentity = false := by simpa using hT
      rw [WireCodec.comparedValues_of_not_hasIdentity T hF a ha0,
        WireCodec.comparedValues_of_not_hasIdentity T hF b hb0]
  · intro h
    have hcmp := heq.1 h
    simp [WireCodec.objHashCode, hcmp]

/-- Two trades with the same `id` and different other fields are equal with equal hash codes;
for points, which mark no identity field, equality is equality of all fields. -/
theorem WireCodec_equality_over_identity_fields_witness :
    WireCodec.isInstance WireCodec.tradeType (WireCodec.trade 5 100 true) = true ∧
    WireCodec.isInstance WireCodec.tradeType (WireCodec.trade 5 250 false) = true ∧
    WireCodec.agreeOnIdentity WireCodec.tradeType (WireCodec.trade 5 100 true)
      (WireCodec.trade 5 250 false) = true ∧
    WireCodec.objEquals WireCodec.tradeType (WireCodec.trade 5 100 true)
      (WireCodec.trade 5 250 false) = true ∧
    WireCodec.objHashCode WireCodec.sampleHash WireCodec.tradeType
        (WireCodec.trade 5 100 true)
      = WireCodec.objHashCode WireCodec.sampleHash WireCodec.tradeType
        (WireCodec.trade 5 250 false) ∧
    WireCodec.isInstance WireCodec.pointType (WireCodec.point 1 2) = true ∧
    WireCodec.isInstance WireCodec.pointType (WireCodec.point 1 3) = true ∧
    (WireCodec.objEquals WireCodec.pointType (WireCodec.point 1 2) (WireCodec.point 1 3)
        = true ↔
      if WireCodec.pointType.hasIdentity = true then
        WireCodec.agreeOnIdentity WireCodec.pointType (WireCodec.point 1 2)
          (WireCodec.point 1 3) = true
      else (WireCodec.point 1 2).values = (WireCodec.point 1 3).values) :=
  ⟨by decide, by decide, by decide,
    (WireCodec_equality_over_identity_fields WireCodec.sampleHash WireCodec.tradeType
      (WireCodec.trade 5 100 true) (WireCodec.trade 5 250 false) (by decide) (by decide)).1.2
      (by decide),
    (WireCodec_equality_over_identity_fields WireCodec.sampleHash WireCodec.tradeType
      (WireCodec.trade 5 100 true) (WireCodec.trade 5 250 false) (by decide) (by decide)).2
      (by decide),
    by decide, by decide,
    (WireCodec_equality_over_identity_fields WireCodec.sampleHash WireCodec.pointType
      (WireCodec.point 1 2) (WireCodec.point 1 3) (by decide) (by decide)).1⟩

/-! ## The wire codec: round trip -/

namespace WireCodec

/-- A descriptor that `registerType` accepts is registered afterwards. -/
theorem lookup_registerType (reg reg1 : Registry) (T : TypeDescriptor)
    (h : reg.registerType T = .ok reg1) : reg1.lookup T.typeId = some T := by
  unfold Registry.registerType at h
  cases hl : reg.lookup T.typeId with
  | some T0 =>
    rw [hl] at h
    simp only at h
    split_ifs at h with heq
    cases h
    rw [hl, heq]
  | none =>
    rw [hl] at h
    simp only at h
    cases h
    unfold Registry.lookup at hl ⊢
    simp [List.find?_append, hl]

/-- The sample registry is the result of registering the two sample types. -/
theorem sampleRegistry_registered :
    ((Registry.mk []).registerType pointType).bind (fun reg => reg.registerType tradeType)
      = .ok sampleRegistry := by
  rfl

/-- Error cases of `decode` on the sample layout: a truncated encoding of a point is a
`MalformedPayloadError`, an unregistered type id an `UnknownTypeError`. -/
theorem decode_error_cases :
    decode sampleFormat sampleRegistry ((encodeObject sampleFormat pointType (point 1 2)).take 20)
      = .error .MalformedPayloadError ∧
    decode sampleFormat sampleRegistry [0, 0, 0, 8, 0, 0, 0, 0] = .error .UnknownTypeError := by
  constructor <;> rfl

theorem decodeFields_encodeFields {V : Type} (L : WireFormat V) (hL : L.SelfConsistent)
    (fs : List FieldDescriptor) (vs : List V) (rest : List Nat)
    (h : fieldsConform L fs vs = true) :
    decodeFields L fs (encodeFields L fs vs ++ rest) = some (vs, rest) := by
  induction fs generalizing vs with
  | nil =>
    cases vs with
    | nil => simp [decodeFields, encodeFields]
    | cons v vs => simp [fieldsConform] at h
  | cons f fs ih =>
    cases vs with
    | nil => simp [fieldsConform] at h
    | cons v vs =>
      simp only [fieldsConform, Bool.and_eq_true, decide_eq_true_eq] at h
      obtain ⟨⟨⟨htag, hfit⟩, hval⟩, htail⟩ := h
      have h1 := hL.1 f.tag (L.putValue v ++ (encodeFields L fs vs ++ rest)) hfit
      have h2 := hL.2 v (encodeFields L fs vs ++ rest) hval
      rw [htag] at h2
      simp only [decodeFields, encodeFields, List.append_assoc, h1, if_true, h2,
        ih vs htail]

theorem decode_encodeObject {V : Type} (L : WireFormat V) (hL : L.SelfConsistent)
    (reg : Registry) (T : TypeDescriptor) (hreg : reg.lookup T.typeId = some T)
    (v : TypedObject V) (hv : hasShape L T v = true) :
    decode L reg (encodeObject L T v) = .ok v := by
  simp only [hasShape, Bool.and_eq_true, decide_eq_true_eq] at hv
  obtain ⟨⟨⟨hid, hidfit⟩, hcount⟩, hfields⟩ := hv
  have h1 := hL.1 v.typeId
    (L.putNat T.fields.length ++ (encodeFields L T.fields v.values ++ [])) (hid ▸ hidfit)
  have h2 := hL.1 T.fields.length (encodeFields L T.fields v.values ++ []) hcount
  have h3 := decodeFields_encodeFields L hL T.fields v.values [] hfields
  simp only [List.append_nil] at h1 h2 h3
  simp only [decode, encodeObject, List.append_assoc, h1, hid, hreg, h2, if_true, h3]
  cases v
  simp_all

theorem putU32_getU32 (n : Nat) (rest : List Nat) (h : n < 4294967296) :
    getU32 (putU32 n ++ rest) = some (n, rest) := by
  simp only [putU32, getU32, List.cons_append, List.nil_append, Option.some.injEq,
    Prod.mk.injEq, and_true]
  omega

theorem sampleFormat_selfConsistent : sampleFormat.SelfConsistent := by
  refine ⟨?_, ?_⟩
  · intro n rest h
    simp only [sampleFormat, decide_eq_true_eq] at h
    exact putU32_getU32 n rest h
  · intro v rest h
    cases v with
    | int n =>
      simp only [sampleFormat, Scalar.fits, Bool.and_eq_true, decide_eq_true_eq] at h
      have hlt : (n % 4294967296).toNat < 4294967296 := by omega
      simp only [sampleFormat, Scalar.tag, Scalar.put, Scalar.get, if_true,
        putU32_getU32 _ rest hlt, Option.some.injEq, Prod.mk.injEq, and_true,
        Scalar.int.injEq]
      split_ifs <;> omega
    | bool b =>
      cases b <;> simp [sampleFormat, Scalar.tag, Scalar.put, Scalar.get]

end WireCodec

/-- C6: round-trip law of the wire codec. For every type descriptor `T` registered in the
registry and every value `v` of shape `T`, `encode` yields bytes, `decode` of these bytes
yields an object, and that object equals `v` under the identity-field equality rule (it is
in fact `v` itself). -/
theorem WireCodec_decode_encode {V : Type} [DecidableEq V] (L : WireCodec.WireFormat V)
    (hL : L.SelfConsistent) (reg : WireCodec.Registry) (T : WireCodec.TypeDescriptor)
    (hreg : reg.lookup T.typeId = some T) (v : WireCodec.TypedObject V)
    (hv : WireCodec.hasShape L T v = true) :
    ∃ bytes decoded, WireCodec.encode L reg v = some bytes ∧
      WireCodec.decode L reg bytes = .ok decoded ∧
      WireCodec.objEquals T decoded v = true ∧ decoded = v := by
  have hid : v.typeId = T.typeId := by
    simp only [WireCodec.hasShape, Bool.and_eq_true, decide_eq_true_eq] at hv
    exact hv.1.1.1
  refine ⟨WireCodec.encodeObject L T v, v, ?_, ?_, ?_, rfl⟩
  · simp [WireCodec.encode, hid, hreg]
  · exact WireCodec.decode_encodeObject L hL reg T hreg v hv
  · exact WireCodec.objEquals_refl T v

/-- Scenario A of the spec on the sample layout: the point `{1, 2}` survives encode and
decode. -/
theorem WireCodec_decode_encode_witness :
    WireCodec.sampleFormat.SelfConsistent ∧
    WireCodec.sampleRegistry.lookup WireCodec.pointType.typeId = some WireCodec.pointType ∧
    WireCodec.hasShape WireCodec.sampleFormat WireCodec.pointType (WireCodec.point 1 2)
      = true ∧
    (∃ bytes decoded,
      WireCodec.encode WireCodec.sampleFormat WireCodec.sampleRegistry (WireCodec.point 1 2)
        = some bytes ∧
      WireCodec.decode WireCodec.sampleFormat WireCodec.sampleRegistry bytes = .ok decoded ∧
      WireCodec.objEquals WireCodec.pointType decoded (WireCodec.point 1 2) = true ∧
      decoded = WireCodec.point 1 2) :=
  ⟨WireCodec.sampleFormat_selfConsistent, by decide, by decide,
    WireCodec_decode_encode WireCodec.sampleFormat WireCodec.sampleFormat_selfConsistent
      WireCodec.sampleRegistry WireCodec.pointType (by decide) (WireCodec.point 1 2)
      (by decide)⟩

/-! ## Event dispatch: order and gating -/

namespace CqRegistry

theorem transition_delivered (q q1 : ContinuousQuery) (op : Operation)
    (h : transition q op = .ok q1) : q1.delivered = q.delivered := by
  cases op <;> simp only [transition] at h <;> split at h <;> cases h <;> rfl

/-- Every successful operation follows an edge of the graph of section 4.4 or keeps the
state. -/
theorem transition_follows_graph (q q1 : ContinuousQuery) (op : Operation)
    (h : transition q op = .ok q1) :
    q1.state = q.state ∨ specGraphEdge q.state q1.state = true := by
  cases op <;> simp only [transition] at h <;> split at h <;> cases h <;>
    simp_all [specGraphEdge]

/-- Every operation on a `CLOSED` query fails with `IllegalCqStateError`. -/
theorem transition_closed (q : ContinuousQuery) (op : Operation) (h : q.state = .CLOSED) :
    transition q op = .error .IllegalCqStateError := by
  cases op <;> simp [transition, h]

theorem step_closed (q : ContinuousQuery) (i : Input) (h : q.state = .CLOSED) :
    step q i = q := by
  cases i with
  | frame f => simp [step, dispatch, h]
  | request op => simp [step, transition_closed q op h]

theorem run_closed (q : ContinuousQuery) (inputs : List Input) (h : q.state = .CLOSED) :
    run q inputs = q := by
  induction inputs with
  | nil => rfl
  | cons i rest ih =>
    have hstep : run q (i :: rest) = run (step q i) rest := rfl
    rw [hstep, step_closed q i h, ih]

theorem run_append (q : ContinuousQuery) (pre post : List Input) :
    run q (pre ++ post) = run (run q pre) post := by
  simp [run, List.foldl_append]

theorem dispatch_not_running (q : ContinuousQuery) (f : EventFrame)
    (h : q.state ≠ .RUNNING) : dispatch q f = q := by
  simp [dispatch, h]

theorem run_delivered_sublist (q : ContinuousQuery) (inputs : List Input) :
    ∃ extra, (run q inputs).delivered = q.delivered ++ extra ∧
      extra.Sublist (arrivals inputs) := by
  induction inputs generalizing q with
  | nil => exact ⟨[], by simp [run], List.Sublist.refl _⟩
  | cons i rest ih =>
    have hstep : run q (i :: rest) = run (step q i) rest := rfl
    obtain ⟨extra, hextra, hsub⟩ := ih (step q i)
    rw [hstep, hextra]
    cases i with
    | frame f =>
      simp only [step, dispatch, arrivals]
      split_ifs with hc
      · exact ⟨f :: extra, by simp, hsub.cons₂ f⟩
      · exact ⟨extra, rfl, hsub.cons f⟩
    | request op =>
      simp only [step, arrivals]
      cases ht : transition q op with
      | ok q1 => exact ⟨extra, by simp [transition_delivered q q1 op ht], hsub⟩
      | error e => exact ⟨extra, rfl, hsub⟩

theorem run_frames_running (q : ContinuousQuery) (frames : List EventFrame)
    (hstate : q.state = .RUNNING)
    (hown : ∀ f ∈ frames, q.subscriptionId = some f.subscriptionId) :
    run q (frames.map Input.frame) =
      { q with delivered := q.delivered ++ frames } := by
  induction frames generalizing q with
  | nil => simp [run]
  | cons f rest ih =>
    have hstep : run q ((f :: rest).map Input.frame)
        = run (step q (.frame f)) (rest.map Input.frame) := rfl
    have hf : q.subscriptionId = some f.subscriptionId := hown f (List.mem_cons_self _ _)
    have hd : step q (.frame f) = { q with delivered := q.delivered ++ [f] } := by
      simp [step, dispatch, hf, hstate]
    have htail := ih { q with delivered := q.delivered ++ [f] } hstate
      (fun g hg => hown g (List.mem_cons_of_mem _ hg))
    rw [hstep, hd, htail]
    simp

end CqRegistry

/-- C7: for every continuous query and every sequence of inputs, the listener invocations
added by the run are frames of the sequence in their order of arrival; a run of frames owned
by a `RUNNING` query is delivered completely and in that order; a frame that arrives while
the query is not `RUNNING` is not delivered, one that arrives for its subscription while it
is `RUNNING` is delivered next; and once the query is `CLOSED` nothing is delivered any
more. -/
theorem CqRegistry_delivery_in_arrival_order (q : CqRegistry.ContinuousQuery)
    (inputs : List CqRegistry.Input) :
    (∃ extra, (CqRegistry.run q inputs).delivered = q.delivered ++ extra ∧
      extra.Sublist (CqRegistry.arrivals inputs)) ∧
    (∀ frames : List CqRegistry.EventFrame, q.state = .RUNNING →
      (∀ f ∈ frames, q.subscriptionId = some f.subscriptionId) →
      (CqRegistry.run q (frames.map CqRegistry.Input.frame)).delivered
        = q.delivered ++ frames) ∧
    (∀ (pre : List CqRegistry.Input) (f : CqRegistry.EventFrame),
      (CqRegistry.run q pre).state ≠ .RUNNING →
      (CqRegistry.run q (pre ++ [.frame f])).delivered = (CqRegistry.run q pre).delivered) ∧
    (∀ (pre : List CqRegistry.Input) (f : CqRegistry.EventFrame),
      (CqRegistry.run q pre).state = .RUNNING →
      (CqRegistry.run q pre).subscriptionId = some f.subscriptionId →
      (CqRegistry.run q (pre ++ [.frame f])).delivered
        = (CqRegistry.run q pre).delivered ++ [f]) ∧
    (∀ pre post : List CqRegistry.Input, (CqRegistry.run q pre).state = .CLOSED →
      (CqRegistry.run q (pre ++ post)).delivered = (CqRegistry.run q pre).delivered ∧
      (CqRegistry.run q (pre ++ post)).state = .CLOSED) := by
  refine ⟨CqRegistry.run_delivered_sublist q inputs, ?_, ?_, ?_, ?_⟩
  · intro frames hstate hown
    rw [CqRegistry.run_frames_running q frames hstate hown]
  · intro pre f hstate
    rw [CqRegistry.run_append]
    have hone : CqRegistry.run (CqRegistry.run q pre) [.frame f]
        = CqRegistry.dispatch (CqRegistry.run q pre) f := rfl
    rw [hone, CqRegistry.dispatch_not_running _ f hstate]
  · intro pre f hstate hown
    rw [CqRegistry.run_append]
    have hone : CqRegistry.run (CqRegistry.run q pre) [.frame f]
        = CqRegistry.dispatch (CqRegistry.run q pre) f := rfl
    rw [hone]
    simp [CqRegistry.dispatch, hstate, hown]
  · intro pre post hclosed
    rw [CqRegistry.run_append, CqRegistry.run_closed _ post hclosed]
    exact ⟨rfl, hclosed⟩

/-- Scenarios C and D of the spec: three events delivered in order after registration; an event
that arrives while `STOPPED` is discarded; nothing is delivered from `close` on. -/
theorem CqRegistry_delivery_in_arrival_order_witness :
    (CqRegistry.run CqRegistry.cq1 [.request (.registerAck 1 42)]).state = .RUNNING ∧
    (CqRegistry.run (CqRegistry.run CqRegistry.cq1 [.request (.registerAck 1 42)])
        ([CqRegistry.createEvent 1, CqRegistry.createEvent 2, CqRegistry.createEvent 3].map
          CqRegistry.Input.frame)).delivered
      = [] ++ [CqRegistry.createEvent 1, CqRegistry.createEvent 2, CqRegistry.createEvent 3] ∧
    (CqRegistry.run CqRegistry.cq1
        ([.request (.registerAck 1 42), .request .stop] ++
          [.frame (CqRegistry.createEvent 4)])).delivered
      = (CqRegistry.run CqRegistry.cq1
          [.request (.registerAck 1 42), .request .stop]).delivered ∧
    (CqRegistry.run CqRegistry.cq1
        [.request (.registerAck 1 42), .frame (CqRegistry.createEvent 1), .request .stop,
          .frame (CqRegistry.createEvent 2), .request .start,
          .frame (CqRegistry.createEvent 3), .request .close,
          .frame (CqRegistry.createEvent 4), .request .closeAck,
          .frame (CqRegistry.createEvent 5), .request .start]).delivered
      = [CqRegistry.createEvent 1, CqRegistry.createEvent 3] :=
  ⟨by decide,
    (CqRegistry_delivery_in_arrival_order
      (CqRegistry.run CqRegistry.cq1 [.request (.registerAck 1 42)]) []).2.1
      [CqRegistry.createEvent 1, CqRegistry.createEvent 2, CqRegistry.createEvent 3]
      (by decide) (by decide),
    (CqRegistry_delivery_in_arrival_order CqRegistry.cq1 []).2.2.1
      [.request (.registerAck 1 42), .request .stop] (CqRegistry.createEvent 4) (by decide),
    by decide⟩
